import Mathlib

/-!
# char_drv: a fixed-capacity character device

A shallow embedding of `src/char_drv.c` (the four file operations
`char_drv_open`, `char_drv_release`, `char_drv_read`, `char_drv_write` and
the three globals they share) together with the properties of the
specification that concern them.

Conventions of the embedding:

* `int` values are mathematical integers; every conversion the C code
  performs (`int` to `size_t`, `size_t` to `int`, `size_t` to `ssize_t`) is
  written out as an explicit reduction modulo a power of two
  (LP64: `int` 32 bits, `size_t` and `ssize_t` 64 bits);
* `kern_buf` is an array of `BUF_LEN` ints, i.e. `BUF_LEN * sizeof(int)`
  bytes, and is modelled byte by byte because the user copies are byte
  copies;
* the user-space copy primitives belong to the kernel, not to this driver;
  their outcome (how many bytes could not be copied) is an input of the
  model, the argument `fault`.
-/

namespace CharDrv

/-! ## Constants and machine integers -/

/-- One byte of memory. -/
abbrev Byte := Fin 256

/-- Line 21: `#define BUF_LEN 80`. -/
abbrev BUF_LEN : Nat := 80

/-- The size of an `int` in bytes (4 on every Linux target). -/
abbrev SIZEOF_INT : Nat := 4

/-- The number of bytes of `static int kern_buf[BUF_LEN]`. -/
abbrev KERN_BUF_BYTES : Nat := BUF_LEN * SIZEOF_INT

/-- The errno value `EFAULT` of the kernel headers (`errno-base.h`). -/
abbrev EFAULT : Int := 14

/-- Conversion of a signed value to `size_t` (64 bits, unsigned). -/
def to_size_t (i : Int) : Nat := (i % 2 ^ 64).toNat

/-- Conversion of a value to `int` (32 bits, two's complement). -/
def to_int (i : Int) : Int := (i + 2 ^ 31) % 2 ^ 32 - 2 ^ 31

/-- Conversion of a value to `ssize_t` (64 bits, two's complement). -/
def to_ssize_t (i : Int) : Int := (i + 2 ^ 63) % 2 ^ 64 - 2 ^ 63

/-! ## State -/

/-- The bytes of `kern_buf`, indexed by byte offset from its start. -/
abbrev KernBuf := Fin KERN_BUF_BYTES → Byte

/-- The global variables of lines 25 to 27. -/
structure State where
  /-- The storage `static int kern_buf[BUF_LEN]`, as bytes. -/
  kern_buf : KernBuf
  /-- The write cursor `static int kern_buf_pos`. -/
  kern_buf_pos : Int
  /-- The read cursor `static int kern_buf_pos_rd`. -/
  kern_buf_pos_rd : Int

/-- The state at module load: static storage is zero-initialised and both
cursors are initialised to 0. -/
def init : State :=
  { kern_buf := fun _ => 0, kern_buf_pos := 0, kern_buf_pos_rd := 0 }

/-- The cursor invariant `0 <= read_cursor <= write_cursor <= C`. -/
def inv (s : State) : Prop :=
  0 ≤ s.kern_buf_pos_rd ∧ s.kern_buf_pos_rd ≤ s.kern_buf_pos ∧
    s.kern_buf_pos ≤ BUF_LEN

instance (s : State) : Decidable (inv s) := by
  unfold inv; infer_instance

/-! ## The user-space copy primitives -/

/-- The number of bytes a user copy of `n` bytes reports as not copied: the
primitive returns a number between 0 and `n`; `fault` is the environment's
choice, cut down to `n`. -/
def uncopied (n fault : Nat) : Nat := min fault n

/-- The call `copy_to_user(buf, kern_buf, n)`: the bytes stored into the
caller's buffer are the bytes of `kern_buf` from byte offset 0, all `n` of
them but the uncopied tail; the value returned is the number of bytes not
copied.  A byte read beyond the array is outside the model and reads 0. -/
def copy_to_user (src : KernBuf) (n fault : Nat) : List Byte × Nat :=
  ((List.range (n - uncopied n fault)).map
      (fun i => if h : i < KERN_BUF_BYTES then src ⟨i, h⟩ else 0),
   uncopied n fault)

/-- The call `copy_from_user(kern_buf + pos, buf, n)` with `off` the byte
offset of the destination inside `kern_buf`: the bytes `buf[0 .. n - u)` of
the caller's memory are stored from byte offset `off` on, `u` being the
number of bytes not copied, which is the value returned.  Bytes that would
land outside the array are outside the model. -/
def copy_from_user (dst : KernBuf) (off : Int) (buf : Nat → Byte)
    (n fault : Nat) : KernBuf × Nat :=
  (fun i =>
      if off ≤ (i.val : Int) ∧ (i.val : Int) < off + ((n - uncopied n fault : Nat) : Int)
      then buf ((i.val : Int) - off).toNat else dst i,
   uncopied n fault)

/-! ## The file operations -/

/-- Lines 90 to 92: `char_drv_open` does nothing and returns 0. -/
def char_drv_open (s : State) : State × Int := (s, 0)

/-- Lines 94 to 98: `char_drv_release` resets the read cursor and returns 0. -/
def char_drv_release (s : State) : State × Int :=
  ({ s with kern_buf_pos_rd := 0 }, 0)

/-- What a call of `char_drv_read` produces. -/
structure ReadResult where
  /-- The globals after the call. -/
  state : State
  /-- The value returned (`ssize_t`). -/
  ret : Int
  /-- The bytes stored into the caller's buffer. -/
  user : List Byte
  /-- The length passed to `copy_to_user`, when it was called. -/
  copy_len : Option Nat

/-- Lines 100 to 119: `char_drv_read`, with `count` the requested length. -/
def char_drv_read (s : State) (count : Nat) (fault : Nat) : ReadResult :=
  if s.kern_buf_pos_rd = s.kern_buf_pos then
    { state := s, ret := 0, user := [], copy_len := none }
  else
    let count : Nat :=
      if count > to_size_t s.kern_buf_pos then to_size_t s.kern_buf_pos else count
    let c := copy_to_user s.kern_buf count fault
    let bytes_not_copied : Int := to_int c.2
    let r : Int := ((count : Int) - (to_size_t bytes_not_copied : Int)) % 2 ^ 64
    { state := { s with kern_buf_pos_rd := to_int r }
      ret := to_ssize_t r
      user := c.1
      copy_len := some count }

/-- What a call of `char_drv_write` produces. -/
structure WriteResult where
  /-- The globals after the call. -/
  state : State
  /-- The value returned (`ssize_t`). -/
  ret : Int
  /-- The length passed to `copy_from_user`, when it was called. -/
  copy_len : Option Nat

/-- Lines 134 to 144: the copy from the caller's memory and the advance of
the write cursor, with `count` the length left by the test of line 124.  The
destination `kern_buf + kern_buf_pos` is pointer arithmetic on `int *`: it is
`sizeof(int) * kern_buf_pos` bytes from the start of the array. -/
def write_copy (s : State) (buf : Nat → Byte) (count : Nat) (fault : Nat) :
    WriteResult :=
  let c := copy_from_user s.kern_buf ((SIZEOF_INT : Int) * s.kern_buf_pos) buf count fault
  if c.2 ≠ 0 then
    { state := { s with kern_buf := c.1 }
      ret := to_ssize_t (-EFAULT)
      copy_len := some count }
  else
    { state := { s with
        kern_buf := c.1
        kern_buf_pos := to_int (((to_size_t s.kern_buf_pos : Int) + (count : Int)) % 2 ^ 64) }
      ret := to_ssize_t count
      copy_len := some count }

/-- Lines 121 to 145: `char_drv_write`, with `buf` the caller's memory (the
byte at each offset from the pointer) and `count` the requested length. -/
def char_drv_write (s : State) (buf : Nat → Byte) (count : Nat) (fault : Nat) :
    WriteResult :=
  if count > to_size_t (to_int ((BUF_LEN : Int) - s.kern_buf_pos)) then
    if to_size_t (to_int ((BUF_LEN : Int) - s.kern_buf_pos)) = 0 then
      { state := s, ret := to_ssize_t (-EFAULT), copy_len := none }
    else
      write_copy s buf (to_size_t (to_int ((BUF_LEN : Int) - s.kern_buf_pos))) fault
  else
    write_copy s buf count fault

/-- The value of `count` after the test of line 124: the requested length,
or the remaining room `BUF_LEN - kern_buf_pos` when the request exceeds it. -/
def write_len (s : State) (count : Nat) : Nat :=
  if count > to_size_t (to_int ((BUF_LEN : Int) - s.kern_buf_pos)) then
    to_size_t (to_int ((BUF_LEN : Int) - s.kern_buf_pos))
  else count

/-- The four operations with their arguments and the outcome of the copy. -/
inductive Op where
  | do_open : Op
  | do_write (buf : Nat → Byte) (count : Nat) (fault : Nat) : Op
  | do_read (count : Nat) (fault : Nat) : Op
  | do_release : Op

/-- The state after one operation. -/
def step (s : State) : Op → State
  | Op.do_open => (char_drv_open s).1
  | Op.do_write buf count fault => (char_drv_write s buf count fault).state
  | Op.do_read count fault => (char_drv_read s count fault).state
  | Op.do_release => (char_drv_release s).1

/-- The caller's memory holding the bytes `d` (and zeros after them). -/
def user_mem (d : List Byte) : Nat → Byte := fun i => d.getD i 0

/-- A session close followed by a read of `count` bytes whose copy succeeds. -/
def redrain (s : State) (count : Nat) : ReadResult :=
  char_drv_read (char_drv_release s).1 count 0

/-- The state after a sequence of operations, the first of the list first. -/
def run (s : State) (ops : List Op) : State := ops.foldl step s

/-- The state after a sequence of reads, each given by its requested length
and the outcome of its copy. -/
def read_all (s : State) (rs : List (Nat × Nat)) : State :=
  rs.foldl (fun t r => (char_drv_read t r.1 r.2).state) s

/-- The state after `k` consecutive reads of `n` bytes whose copies succeed. -/
def reads (s : State) (n : Nat) : Nat → State
  | 0 => s
  | k + 1 => (char_drv_read (reads s n k) n 0).state

/-! ## Concrete states used as examples -/

/-- A full channel: 80 bytes accepted, nothing read in the session. -/
def full_state : State :=
  { kern_buf := fun _ => 0, kern_buf_pos := 80, kern_buf_pos_rd := 0 }

/-- The channel after one write of the three bytes 1, 2, 3. -/
def three_state : State := (char_drv_write init (user_mem [1, 2, 3]) 3 0).state

/-- The channel after the three bytes were written and two of them read. -/
def three_read_state : State := (char_drv_read three_state 2 0).state

/-- The fresh channel after a write of the byte 65 and a write of the byte 66. -/
def two_writes_state : State :=
  (char_drv_write (char_drv_write init (user_mem [65]) 1 0).state (user_mem [66]) 1 0).state

/-- The ten bytes of the text `0123456789`. -/
def digits : List Byte := [48, 49, 50, 51, 52, 53, 54, 55, 56, 57]

/-- The first step of the trace: the ten digits written to the fresh channel. -/
def trace_write : WriteResult := char_drv_write init (user_mem digits) 10 0

/-- The second step of the trace: a read of five bytes. -/
def trace_read : ReadResult := char_drv_read trace_write.state 5 0

/-- The channel after the three bytes 1, 2, 3 and then the byte 9 were written. -/
def three_nine_state : State := (char_drv_write three_state (user_mem [9]) 1 0).state

/-! ## Conversions on small values -/

theorem to_size_t_natCast (n : Nat) (h : n < 2 ^ 64) : to_size_t (n : Int) = n := by
  unfold to_size_t; omega

theorem to_int_natCast (n : Nat) (h : n < 2 ^ 31) : to_int (n : Int) = n := by
  unfold to_int; omega

theorem to_ssize_t_natCast (n : Nat) (h : n < 2 ^ 63) : to_ssize_t (n : Int) = n := by
  unfold to_ssize_t; omega

/-- The arithmetic of lines 117 and 118 on small values. -/
theorem sub_uncopied (n u : Nat) (hn : n < 2 ^ 31) (hu : u ≤ n) :
    ((n : Int) - (to_size_t (to_int (u : Int)) : Int)) % 2 ^ 64 = ((n - u : Nat) : Int) := by
  rw [to_int_natCast u (by omega), to_size_t_natCast u (by omega)]
  omega

theorem read_len_eq (p count : Nat) (hp : p ≤ BUF_LEN) :
    (if count > to_size_t (p : Int) then to_size_t (p : Int) else count) = min count p := by
  rw [to_size_t_natCast p (by simp only [BUF_LEN] at hp; omega)]
  split <;> omega

theorem read_eq (s : State) (count fault : Nat)
    (h0 : 0 ≤ s.kern_buf_pos) (h1 : s.kern_buf_pos ≤ BUF_LEN)
    (hne : s.kern_buf_pos_rd ≠ s.kern_buf_pos) :
    char_drv_read s count fault =
      { state := { s with kern_buf_pos_rd :=
          ((min count s.kern_buf_pos.toNat - uncopied (min count s.kern_buf_pos.toNat) fault : Nat) : Int) }
        ret := ((min count s.kern_buf_pos.toNat - uncopied (min count s.kern_buf_pos.toNat) fault : Nat) : Int)
        user := (copy_to_user s.kern_buf (min count s.kern_buf_pos.toNat) fault).1
        copy_len := some (min count s.kern_buf_pos.toNat) } := by
  obtain ⟨p, hp⟩ := Int.eq_ofNat_of_zero_le h0
  have hp80 : p ≤ BUF_LEN := by rw [hp] at h1; exact_mod_cast h1
  unfold char_drv_read
  rw [if_neg hne]
  simp only [hp, Int.toNat_ofNat, read_len_eq p count hp80, copy_to_user]
  have hu : uncopied (min count p) fault ≤ min count p := by unfold uncopied; omega
  have hn : min count p < 2 ^ 31 := by simp only [BUF_LEN] at hp80; omega
  rw [sub_uncopied _ _ hn hu, to_int_natCast _ (by omega), to_ssize_t_natCast _ (by omega)]


theorem to_ssize_t_neg_EFAULT : to_ssize_t (-EFAULT) = -14 := by
  unfold to_ssize_t; decide

theorem avail_eq (p : Nat) (hp : p ≤ BUF_LEN) :
    to_size_t (to_int ((BUF_LEN : Int) - (p : Int))) = BUF_LEN - p := by
  have h : (BUF_LEN : Int) - (p : Int) = ((BUF_LEN - p : Nat) : Int) := by omega
  rw [h, to_int_natCast _ (by simp only [BUF_LEN]; omega),
    to_size_t_natCast _ (by simp only [BUF_LEN]; omega)]

theorem write_len_eq (s : State) (count : Nat)
    (h0 : 0 ≤ s.kern_buf_pos) (h1 : s.kern_buf_pos ≤ BUF_LEN) :
    write_len s count = min count (BUF_LEN - s.kern_buf_pos.toNat) := by
  obtain ⟨p, hp⟩ := Int.eq_ofNat_of_zero_le h0
  have hp80 : p ≤ BUF_LEN := by rw [hp] at h1; exact_mod_cast h1
  unfold write_len
  simp only [hp, Int.toNat_ofNat, avail_eq p hp80]
  split <;> omega

/-- The read that finds nothing unread (lines 104 to 107). -/
theorem read_eq_nothing (s : State) (count fault : Nat)
    (h : s.kern_buf_pos_rd = s.kern_buf_pos) :
    char_drv_read s count fault = { state := s, ret := 0, user := [], copy_len := none } := by
  unfold char_drv_read
  rw [if_pos h]

/-- The write on a full buffer with a non-empty request (lines 124 to 131). -/
theorem write_eq_full (s : State) (buf : Nat → Byte) (count fault : Nat)
    (hfull : s.kern_buf_pos = BUF_LEN) (hc : 0 < count) :
    char_drv_write s buf count fault =
      { state := s, ret := -EFAULT, copy_len := none } := by
  have ha := avail_eq BUF_LEN (le_refl _)
  unfold char_drv_write
  rw [to_ssize_t_neg_EFAULT, hfull]
  simp only [ha]
  rw [if_pos (by simpa using hc), if_pos (by simp)]

/-- Every write that is not one on a full buffer with a non-empty request
reaches the copy, with the length `write_len`. -/
theorem write_eq_write_copy (s : State) (buf : Nat → Byte) (count fault : Nat)
    (h : write_len s count ≠ 0 ∨ count = 0) :
    char_drv_write s buf count fault = write_copy s buf (write_len s count) fault := by
  unfold char_drv_write write_len at *
  split
  · rename_i hgt
    rw [if_pos hgt] at h
    rw [if_neg (by omega)]
  · rfl

/-- The copy and the cursor advance on a state whose write cursor is in
range (lines 134 to 144). -/
theorem write_copy_eq (s : State) (buf : Nat → Byte) (n fault : Nat)
    (h0 : 0 ≤ s.kern_buf_pos) (h1 : s.kern_buf_pos ≤ BUF_LEN) (hn : n ≤ BUF_LEN) :
    write_copy s buf n fault =
      if uncopied n fault ≠ 0 then
        { state := { s with kern_buf :=
            (copy_from_user s.kern_buf ((SIZEOF_INT : Int) * s.kern_buf_pos) buf n fault).1 }
          ret := -EFAULT
          copy_len := some n }
      else
        { state := { s with
            kern_buf :=
              (copy_from_user s.kern_buf ((SIZEOF_INT : Int) * s.kern_buf_pos) buf n fault).1
            kern_buf_pos := s.kern_buf_pos + (n : Int) }
          ret := (n : Int)
          copy_len := some n } := by
  obtain ⟨p, hp⟩ := Int.eq_ofNat_of_zero_le h0
  have hp80 : p ≤ BUF_LEN := by rw [hp] at h1; exact_mod_cast h1
  unfold write_copy
  rw [to_ssize_t_neg_EFAULT]
  simp only [hp, copy_from_user]
  rw [to_ssize_t_natCast _ (by simp only [BUF_LEN] at hn; omega),
    to_size_t_natCast p (by simp only [BUF_LEN] at hp80; omega)]
  have hsum : ((p : Int) + (n : Int)) % 2 ^ 64 = ((p + n : Nat) : Int) := by
    simp only [BUF_LEN] at hp80 hn; omega
  rw [hsum, to_int_natCast _ (by simp only [BUF_LEN] at hp80 hn; omega)]
  simp only [Nat.cast_add]

/-- The write that reaches the copy, on a state whose write cursor is in
range. -/
theorem write_eq_copy (s : State) (buf : Nat → Byte) (count fault : Nat)
    (h0 : 0 ≤ s.kern_buf_pos) (h1 : s.kern_buf_pos ≤ BUF_LEN)
    (hroom : s.kern_buf_pos < BUF_LEN ∨ count = 0) :
    char_drv_write s buf count fault =
      if uncopied (min count (BUF_LEN - s.kern_buf_pos.toNat)) fault ≠ 0 then
        { state := { s with kern_buf :=
            (copy_from_user s.kern_buf ((SIZEOF_INT : Int) * s.kern_buf_pos) buf
              (min count (BUF_LEN - s.kern_buf_pos.toNat)) fault).1 }
          ret := -EFAULT
          copy_len := some (min count (BUF_LEN - s.kern_buf_pos.toNat)) }
      else
        { state := { s with
            kern_buf :=
              (copy_from_user s.kern_buf ((SIZEOF_INT : Int) * s.kern_buf_pos) buf
                (min count (BUF_LEN - s.kern_buf_pos.toNat)) fault).1
            kern_buf_pos := s.kern_buf_pos + (min count (BUF_LEN - s.kern_buf_pos.toNat) : Nat) }
          ret := (min count (BUF_LEN - s.kern_buf_pos.toNat) : Nat)
          copy_len := some (min count (BUF_LEN - s.kern_buf_pos.toNat)) } := by
  have hl := write_len_eq s count h0 h1
  have hne : write_len s count ≠ 0 ∨ count = 0 := by
    rw [hl]; simp only [BUF_LEN] at *; omega
  rw [write_eq_write_copy s buf count fault hne, hl]
  exact write_copy_eq s buf _ fault h0 h1 (by omega)

/-! ## Facts about the copies -/

theorem uncopied_le (n fault : Nat) : uncopied n fault ≤ n := by
  unfold uncopied; omega

theorem uncopied_zero_fault (n : Nat) : uncopied n 0 = 0 := by
  unfold uncopied; omega

theorem uncopied_of_le (n u : Nat) (h : u ≤ n) : uncopied n u = u := by
  unfold uncopied; omega

/-- A copy of no bytes leaves the destination as it was. -/
theorem copy_from_user_zero (dst : KernBuf) (off : Int) (buf : Nat → Byte) (fault : Nat) :
    (copy_from_user dst off buf 0 fault).1 = dst := by
  unfold copy_from_user
  funext i
  simp only [Nat.zero_sub, Nat.cast_zero, add_zero]
  rw [if_neg (by omega)]

/-- The bytes a successful copy to the caller delivers, one by one. -/
theorem copy_to_user_getElem (src : KernBuf) (n : Nat) (i : Fin KERN_BUF_BYTES)
    (hi : i.val < n) : (copy_to_user src n 0).1[i.val]? = some (src i) := by
  unfold copy_to_user
  rw [uncopied_zero_fault]
  simp [List.getElem?_map, List.getElem?_range, hi, i.isLt]

theorem copy_to_user_length (src : KernBuf) (n fault : Nat) :
    (copy_to_user src n fault).1.length = n - uncopied n fault := by
  unfold copy_to_user; simp

/-! ## Frames and monotonicity -/

/-- The cursors and storage of a read result that differs from the state
before in the read cursor only. -/
theorem read_result_frame (s : State) (x ret : Int) (u : List Byte) (c : Option Nat) :
    ({ state := { s with kern_buf_pos_rd := x }, ret := ret, user := u, copy_len := c }
        : ReadResult).state.kern_buf = s.kern_buf ∧
    ({ state := { s with kern_buf_pos_rd := x }, ret := ret, user := u, copy_len := c }
        : ReadResult).state.kern_buf_pos = s.kern_buf_pos :=
  ⟨rfl, rfl⟩

/-- A read changes neither storage nor the write cursor. -/
theorem read_frame (s : State) (count fault : Nat) :
    (char_drv_read s count fault).state.kern_buf = s.kern_buf ∧
    (char_drv_read s count fault).state.kern_buf_pos = s.kern_buf_pos := by
  by_cases h : s.kern_buf_pos_rd = s.kern_buf_pos
  · rw [read_eq_nothing s count fault h]
    exact ⟨rfl, rfl⟩
  · unfold char_drv_read
    rewrite [if_neg h]
    exact read_result_frame s _ _ _ _

theorem read_all_frame (rs : List (Nat × Nat)) (s : State) :
    (read_all s rs).kern_buf = s.kern_buf ∧ (read_all s rs).kern_buf_pos = s.kern_buf_pos := by
  induction rs generalizing s with
  | nil => exact ⟨rfl, rfl⟩
  | cons r rs ih =>
    have h := ih (char_drv_read s r.1 r.2).state
    have hf := read_frame s r.1 r.2
    show (read_all (char_drv_read s r.1 r.2).state rs).kern_buf = _ ∧
      (read_all (char_drv_read s r.1 r.2).state rs).kern_buf_pos = _
    rw [h.1, h.2]
    exact hf

/-- One operation preserves the cursor invariant. -/
theorem step_inv (s : State) (op : Op) (h : inv s) : inv (step s op) := by
  cases op with
  | do_open => exact h
  | do_release =>
    unfold inv at *
    simp only [step, char_drv_release]
    omega
  | do_read count fault =>
    simp only [step]
    by_cases hrd : s.kern_buf_pos_rd = s.kern_buf_pos
    · rw [read_eq_nothing s count fault hrd]; exact h
    · rw [read_eq s count fault (by unfold inv at h; omega) h.2.2 hrd]
      have hu := uncopied_le (min count s.kern_buf_pos.toNat) fault
      unfold inv at *
      simp only
      omega
  | do_write buf count fault =>
    simp only [step]
    by_cases hfull : s.kern_buf_pos = BUF_LEN ∧ 0 < count
    · rw [write_eq_full s buf count fault hfull.1 hfull.2]; exact h
    · have h0 : 0 ≤ s.kern_buf_pos := by unfold inv at h; omega
      rw [write_eq_copy s buf count fault h0 h.2.2 (by have := h.2.2; omega)]
      unfold inv at *
      split
      · exact h
      · simp only [BUF_LEN] at *
        omega

theorem run_inv (ops : List Op) (s : State) (h : inv s) : inv (run s ops) := by
  induction ops generalizing s with
  | nil => exact h
  | cons op ops ih => exact ih (step s op) (step_inv s op h)

/-- A write changes the write cursor only by returning a positive count, and
then adds that count to it. -/
theorem write_pos (s : State) (buf : Nat → Byte) (count fault : Nat) (h : inv s) :
    ((char_drv_write s buf count fault).state.kern_buf_pos = s.kern_buf_pos ∨
      0 < (char_drv_write s buf count fault).ret) ∧
    s.kern_buf_pos ≤ (char_drv_write s buf count fault).state.kern_buf_pos := by
  by_cases hfull : s.kern_buf_pos = BUF_LEN ∧ 0 < count
  · rw [write_eq_full s buf count fault hfull.1 hfull.2]
    exact ⟨Or.inl rfl, le_refl _⟩
  · have h0 : 0 ≤ s.kern_buf_pos := by unfold inv at h; omega
    rw [write_eq_copy s buf count fault h0 h.2.2 (by have := h.2.2; omega)]
    split
    · exact ⟨Or.inl rfl, le_refl _⟩
    · simp only
      omega

/-- One operation never lowers the write cursor, and changes it only when it
is a write that returns a positive count. -/
theorem step_pos (s : State) (op : Op) (h : inv s) :
    s.kern_buf_pos ≤ (step s op).kern_buf_pos ∧
    ((step s op).kern_buf_pos ≠ s.kern_buf_pos →
      ∃ buf count fault, op = Op.do_write buf count fault ∧
        0 < (char_drv_write s buf count fault).ret) := by
  cases op with
  | do_open => exact ⟨le_refl _, fun hne => absurd rfl hne⟩
  | do_release => exact ⟨le_refl _, fun hne => absurd rfl hne⟩
  | do_read count fault =>
    have hf := (read_frame s count fault).2
    simp only [step]
    rw [hf]
    exact ⟨le_refl _, fun hne => absurd rfl hne⟩
  | do_write buf count fault =>
    have hw := write_pos s buf count fault h
    simp only [step]
    refine ⟨hw.2, fun hne => ⟨buf, count, fault, rfl, ?_⟩⟩
    rcases hw.1 with heq | hpos
    · exact absurd heq hne
    · exact hpos

theorem run_pos_le (ops : List Op) (s : State) (h : inv s) :
    s.kern_buf_pos ≤ (run s ops).kern_buf_pos := by
  induction ops generalizing s with
  | nil => exact le_refl _
  | cons op ops ih =>
    exact le_trans (step_pos s op h).1 (ih (step s op) (step_inv s op h))

/-- A write whose copy succeeds, byte by byte: the bytes land `sizeof(int)`
times the write cursor from the start of the array, all else is kept, and
the write cursor advances by the length written. -/
theorem write_ok (s : State) (buf : Nat → Byte) (count : Nat) (h : inv s) :
    (char_drv_write s buf count 0).state.kern_buf_pos
      = s.kern_buf_pos + (write_len s count : Int) ∧
    (char_drv_write s buf count 0).state.kern_buf_pos_rd = s.kern_buf_pos_rd ∧
    ∀ i : Fin KERN_BUF_BYTES,
      (char_drv_write s buf count 0).state.kern_buf i =
        if (SIZEOF_INT : Int) * s.kern_buf_pos ≤ (i.val : Int) ∧
            (i.val : Int) < (SIZEOF_INT : Int) * s.kern_buf_pos + (write_len s count : Int)
        then buf ((i.val : Int) - (SIZEOF_INT : Int) * s.kern_buf_pos).toNat
        else s.kern_buf i := by
  have h0 : 0 ≤ s.kern_buf_pos := by unfold inv at h; omega
  have hl := write_len_eq s count h0 h.2.2
  by_cases hfull : s.kern_buf_pos = BUF_LEN ∧ 0 < count
  · have hz : write_len s count = 0 := by
      rw [hl, hfull.1]; simp
    rw [write_eq_full s buf count 0 hfull.1 hfull.2, hz]
    refine ⟨by simp, rfl, fun i => ?_⟩
    rw [if_neg (by simp only [Nat.cast_zero, add_zero]; omega)]
  · rw [write_eq_copy s buf count 0 h0 h.2.2 (by have := h.2.2; omega)]
    rw [if_neg (by rw [uncopied_zero_fault]; simp), hl]
    refine ⟨rfl, rfl, fun i => ?_⟩
    simp only [copy_from_user, uncopied_zero_fault, Nat.sub_zero]

/-- The list a successful copy to the caller delivers is the list that has
its length and its bytes. -/
theorem copy_to_user_eq (src : KernBuf) (n : Nat) (l : List Byte)
    (hl : l.length = n) (hn : n ≤ KERN_BUF_BYTES)
    (h : ∀ i : Fin KERN_BUF_BYTES, i.val < n → l[i.val]? = some (src i)) :
    (copy_to_user src n 0).1 = l := by
  apply List.ext_getElem?
  intro i
  by_cases hi : i < n
  · have hi2 : i < KERN_BUF_BYTES := lt_of_lt_of_le hi hn
    rw [copy_to_user_getElem src n ⟨i, hi2⟩ hi, h ⟨i, hi2⟩ hi]
  · have h1 : (copy_to_user src n 0).1.length ≤ i := by
      rw [copy_to_user_length, uncopied_zero_fault]; omega
    rw [List.getElem?_eq_none h1, List.getElem?_eq_none (by omega)]

/-- The value a write with a succeeding copy returns when it reaches the
copy: the length left by the test of line 124. -/
theorem write_ok_ret (s : State) (buf : Nat → Byte) (count : Nat) (h : inv s)
    (hroom : s.kern_buf_pos < BUF_LEN ∨ count = 0) :
    (char_drv_write s buf count 0).ret = (write_len s count : Int) := by
  have h0 : 0 ≤ s.kern_buf_pos := by unfold inv at h; omega
  rw [write_eq_copy s buf count 0 h0 h.2.2 hroom, write_len_eq s count h0 h.2.2]
  rw [if_neg (by rw [uncopied_zero_fault]; simp)]

/-- The write that finds no room at all for a non-empty request returns
`-EFAULT` at line 130, in every state. -/
theorem write_eq_no_room (s : State) (buf : Nat → Byte) (count fault : Nat)
    (hc : 0 < count) (hz : write_len s count = 0) :
    char_drv_write s buf count fault = { state := s, ret := -EFAULT, copy_len := none } := by
  unfold write_len at hz
  unfold char_drv_write
  rw [to_ssize_t_neg_EFAULT]
  by_cases hgt : count > to_size_t (to_int ((BUF_LEN : Int) - s.kern_buf_pos))
  · rw [if_pos hgt] at hz
    rw [if_pos hgt, if_pos hz]
  · rw [if_neg hgt] at hz
    omega

/-- The write whose copy reports uncopied bytes returns `-EFAULT` at line
140, in every state. -/
theorem write_fault_ret (s : State) (buf : Nat → Byte) (count fault : Nat)
    (h : uncopied (write_len s count) fault ≠ 0) :
    (char_drv_write s buf count fault).ret = -EFAULT := by
  have hlen : write_len s count ≠ 0 := by
    intro hz
    rw [hz] at h
    exact h (by unfold uncopied; omega)
  rw [write_eq_write_copy s buf count fault (Or.inl hlen)]
  unfold write_copy
  simp only [copy_from_user]
  rw [if_pos h, to_ssize_t_neg_EFAULT]

/-! ## The claims -/

/-- C1: the cursor invariant `0 <= read_cursor <= write_cursor <= 80` holds in
the initial state and, from every state that satisfies it, holds again after
any of the four operations, for every requested length and every outcome of
the user-space copy. -/
theorem cursor_invariant (s : State) (op : Op) (h : inv s) :
    inv init ∧ inv (step s op) :=
  ⟨by decide, step_inv s op h⟩

theorem cursor_invariant_witness :
    inv three_state ∧ (inv init ∧ inv (step three_state (Op.do_read 2 1))) :=
  ⟨by decide, cursor_invariant three_state (Op.do_read 2 1) (by decide)⟩

/-- C2 (the code departs from it): after a write of the byte 65 and a write
of the byte 66 to the fresh channel, both returning 1, a read of 2 bytes
returns 2 and delivers 65 followed by a zero byte, not 65 followed by 66; the
second byte was stored at byte offset 4 of `kern_buf`. -/
theorem two_writes_not_concatenated :
    (char_drv_write init (user_mem [65]) 1 0).ret = 1 ∧
    (char_drv_write (char_drv_write init (user_mem [65]) 1 0).state (user_mem [66]) 1 0).ret = 1 ∧
    (char_drv_read two_writes_state 2 0).ret = 2 ∧
    (char_drv_read two_writes_state 2 0).user = [65, 0] ∧
    (char_drv_read two_writes_state 2 0).user ≠ [65] ++ [66] ∧
    two_writes_state.kern_buf ⟨4, by decide⟩ = 66 := by
  decide

/-- C3, as stated, fails: on a full channel a write of requested length 0
returns the byte count 0, which is not an error. -/
theorem write_full_zero_length :
    full_state.kern_buf_pos = BUF_LEN ∧
    (char_drv_write full_state (user_mem []) 0 0).ret = 0 ∧
    ¬ (char_drv_write full_state (user_mem []) 0 0).ret < 0 := by
  decide

/-- C3, amended: when `write_cursor == 80`, a write of requested length at
least 1 fails with `-EFAULT` without calling the copy, a write of requested
length 0 returns 0, and in both cases storage and both cursors are unchanged. -/
theorem write_full (s : State) (buf : Nat → Byte) (count fault : Nat)
    (hfull : s.kern_buf_pos = BUF_LEN) :
    (0 < count →
      char_drv_write s buf count fault = { state := s, ret := -EFAULT, copy_len := none }) ∧
    (count = 0 → (char_drv_write s buf count fault).ret = 0) ∧
    (char_drv_write s buf count fault).state = s := by
  have h0 : 0 ≤ s.kern_buf_pos := by rw [hfull]; decide
  have h1 : s.kern_buf_pos ≤ BUF_LEN := by rw [hfull]
  have hz : count = 0 →
      char_drv_write s buf count fault = { state := s, ret := 0, copy_len := some 0 } := by
    intro hc
    subst hc
    rw [write_eq_copy s buf 0 fault h0 h1 (Or.inr rfl)]
    simp only [Nat.zero_min, uncopied, Nat.min_zero, ne_eq, not_true_eq_false, ite_false,
      copy_from_user_zero, Nat.cast_zero, add_zero]
  refine ⟨fun hc => write_eq_full s buf count fault hfull hc, fun hc => ?_, ?_⟩
  · rw [hz hc]
  · rcases Nat.eq_zero_or_pos count with hc | hc
    · rw [hz hc]
    · rw [write_eq_full s buf count fault hfull hc]

theorem write_full_witness :
    full_state.kern_buf_pos = BUF_LEN ∧
    char_drv_write full_state (user_mem [7]) 1 0 =
      { state := full_state, ret := -EFAULT, copy_len := none } :=
  ⟨by decide, (write_full full_state (user_mem [7]) 1 0 (by decide)).1 (by decide)⟩

/-- C4: from a state satisfying the cursor invariant with room left
(`available = 80 - write_cursor > 0`), a write whose copy succeeds returns
`min(requested_len, available)`, advances the write cursor by exactly the
value returned and leaves the read cursor alone; when the request exceeds the
room the value returned is the room, not the request. -/
theorem write_returns_min (s : State) (buf : Nat → Byte) (count : Nat)
    (hinv : inv s) (hroom : s.kern_buf_pos < BUF_LEN) :
    (char_drv_write s buf count 0).ret = min (count : Int) ((BUF_LEN : Int) - s.kern_buf_pos) ∧
    (char_drv_write s buf count 0).state.kern_buf_pos =
      s.kern_buf_pos + (char_drv_write s buf count 0).ret ∧
    (char_drv_write s buf count 0).state.kern_buf_pos_rd = s.kern_buf_pos_rd ∧
    ((BUF_LEN : Int) - s.kern_buf_pos < (count : Int) →
      (char_drv_write s buf count 0).ret = (BUF_LEN : Int) - s.kern_buf_pos ∧
      (char_drv_write s buf count 0).ret ≠ (count : Int)) := by
  have h0 : 0 ≤ s.kern_buf_pos := by unfold inv at hinv; omega
  rw [write_eq_copy s buf count 0 h0 hinv.2.2 (Or.inl hroom)]
  rw [if_neg (by rw [uncopied_zero_fault]; simp)]
  have h80 : s.kern_buf_pos < 80 := hroom
  refine ⟨?_, ?_, ?_, fun hgt => ?_⟩
  · show ((min count (BUF_LEN - s.kern_buf_pos.toNat) : Nat) : Int) = _
    simp only [BUF_LEN]; omega
  · rfl
  · rfl
  · show ((min count (BUF_LEN - s.kern_buf_pos.toNat) : Nat) : Int) = _ ∧
      ((min count (BUF_LEN - s.kern_buf_pos.toNat) : Nat) : Int) ≠ _
    simp only [BUF_LEN] at hgt ⊢; omega

theorem write_returns_min_witness :
    (inv three_state ∧ three_state.kern_buf_pos < BUF_LEN) ∧
    ((char_drv_write three_state (user_mem [9]) 100 0).ret
        = min ((100 : Nat) : Int) ((BUF_LEN : Int) - three_state.kern_buf_pos) ∧
      (char_drv_write three_state (user_mem [9]) 100 0).state.kern_buf_pos =
        three_state.kern_buf_pos + (char_drv_write three_state (user_mem [9]) 100 0).ret ∧
      (char_drv_write three_state (user_mem [9]) 100 0).state.kern_buf_pos_rd =
        three_state.kern_buf_pos_rd ∧
      ((BUF_LEN : Int) - three_state.kern_buf_pos < ((100 : Nat) : Int) →
        (char_drv_write three_state (user_mem [9]) 100 0).ret
          = (BUF_LEN : Int) - three_state.kern_buf_pos ∧
        (char_drv_write three_state (user_mem [9]) 100 0).ret ≠ ((100 : Nat) : Int))) :=
  ⟨⟨by decide, by decide⟩,
    write_returns_min three_state (user_mem [9]) 100 (by decide) (by decide)⟩

/-- C5: in every state, a write whose call of `copy_from_user` reports a
non-zero number of uncopied bytes returns the error `-EFAULT`, a negative
value and no byte count, and both cursors are what they were before the call,
whatever the number of bytes that were copied. -/
theorem write_copy_fault (s : State) (buf : Nat → Byte) (count fault : Nat)
    (h : uncopied (write_len s count) fault ≠ 0) :
    (char_drv_write s buf count fault).copy_len = some (write_len s count) ∧
    (char_drv_write s buf count fault).ret = -EFAULT ∧
    (char_drv_write s buf count fault).ret < 0 ∧
    (char_drv_write s buf count fault).state.kern_buf_pos = s.kern_buf_pos ∧
    (char_drv_write s buf count fault).state.kern_buf_pos_rd = s.kern_buf_pos_rd := by
  have hlen : write_len s count ≠ 0 := by
    intro hz
    rw [hz] at h
    exact h (by unfold uncopied; omega)
  rw [write_eq_write_copy s buf count fault (Or.inl hlen)]
  unfold write_copy
  simp only [copy_from_user]
  rw [if_pos h, to_ssize_t_neg_EFAULT]
  exact ⟨rfl, rfl, by show (-14 : Int) < 0; decide, rfl, rfl⟩

theorem write_copy_fault_witness :
    uncopied (write_len three_state 5) 2 ≠ 0 ∧
    ((char_drv_write three_state (user_mem [4, 5, 6, 7, 8]) 5 2).copy_len
        = some (write_len three_state 5) ∧
      (char_drv_write three_state (user_mem [4, 5, 6, 7, 8]) 5 2).ret = -EFAULT ∧
      (char_drv_write three_state (user_mem [4, 5, 6, 7, 8]) 5 2).ret < 0 ∧
      (char_drv_write three_state (user_mem [4, 5, 6, 7, 8]) 5 2).state.kern_buf_pos
        = three_state.kern_buf_pos ∧
      (char_drv_write three_state (user_mem [4, 5, 6, 7, 8]) 5 2).state.kern_buf_pos_rd
        = three_state.kern_buf_pos_rd) :=
  ⟨by decide, write_copy_fault three_state (user_mem [4, 5, 6, 7, 8]) 5 2 (by decide)⟩

/-- C6: from a state whose write cursor is in its range `[0, 80]` and whose
read cursor differs from it, a read whose copy fully succeeds returns
`effective_len = min(requested_len, write_cursor)`, delivers exactly that
many bytes, which are the bytes of storage from offset 0 (whatever the read
cursor was), sets the read cursor to `effective_len` and leaves the write
cursor and storage unchanged. -/
theorem read_delivers_prefix (s : State) (count : Nat)
    (h0 : 0 ≤ s.kern_buf_pos) (h1 : s.kern_buf_pos ≤ BUF_LEN)
    (hne : s.kern_buf_pos_rd ≠ s.kern_buf_pos) :
    (char_drv_read s count 0).ret = min (count : Int) s.kern_buf_pos ∧
    ((char_drv_read s count 0).user.length : Int) = min (count : Int) s.kern_buf_pos ∧
    (∀ i : Fin KERN_BUF_BYTES, (i.val : Int) < min (count : Int) s.kern_buf_pos →
      (char_drv_read s count 0).user[i.val]? = some (s.kern_buf i)) ∧
    (char_drv_read s count 0).state.kern_buf_pos_rd = min (count : Int) s.kern_buf_pos ∧
    (char_drv_read s count 0).state.kern_buf_pos = s.kern_buf_pos ∧
    (char_drv_read s count 0).state.kern_buf = s.kern_buf := by
  rw [read_eq s count 0 h0 h1 hne]
  have hmin : ((min count s.kern_buf_pos.toNat : Nat) : Int) = min (count : Int) s.kern_buf_pos := by
    omega
  refine ⟨?_, ?_, fun i hi => ?_, ?_, rfl, rfl⟩
  · simp only [uncopied_zero_fault, Nat.sub_zero]; exact hmin
  · simp only [copy_to_user_length, uncopied_zero_fault, Nat.sub_zero]; exact hmin
  · exact copy_to_user_getElem s.kern_buf _ i (by omega)
  · simp only [uncopied_zero_fault, Nat.sub_zero]; exact hmin

theorem read_delivers_prefix_witness :
    (0 ≤ three_read_state.kern_buf_pos ∧ three_read_state.kern_buf_pos ≤ BUF_LEN ∧
      three_read_state.kern_buf_pos_rd ≠ three_read_state.kern_buf_pos) ∧
    ((char_drv_read three_read_state 2 0).ret
        = min ((2 : Nat) : Int) three_read_state.kern_buf_pos ∧
      ((char_drv_read three_read_state 2 0).user.length : Int)
        = min ((2 : Nat) : Int) three_read_state.kern_buf_pos ∧
      (∀ i : Fin KERN_BUF_BYTES,
        (i.val : Int) < min ((2 : Nat) : Int) three_read_state.kern_buf_pos →
        (char_drv_read three_read_state 2 0).user[i.val]?
          = some (three_read_state.kern_buf i)) ∧
      (char_drv_read three_read_state 2 0).state.kern_buf_pos_rd
        = min ((2 : Nat) : Int) three_read_state.kern_buf_pos ∧
      (char_drv_read three_read_state 2 0).state.kern_buf_pos
        = three_read_state.kern_buf_pos ∧
      (char_drv_read three_read_state 2 0).state.kern_buf = three_read_state.kern_buf) :=
  ⟨⟨by decide, by decide, by decide⟩,
    read_delivers_prefix three_read_state 2 (by decide) (by decide) (by decide)⟩

/-- C7: in every state whose read cursor equals its write cursor (the
untouched channel is one), a read of any requested length returns 0, delivers
no byte, does not call the copy, and leaves both cursors and storage
unchanged. -/
theorem read_nothing_unread (s : State) (count fault : Nat)
    (h : s.kern_buf_pos_rd = s.kern_buf_pos) :
    char_drv_read s count fault = { state := s, ret := 0, user := [], copy_len := none } :=
  read_eq_nothing s count fault h

theorem read_nothing_unread_witness :
    init.kern_buf_pos_rd = init.kern_buf_pos ∧
    char_drv_read init 8 3 = { state := init, ret := 0, user := [], copy_len := none } :=
  ⟨by decide, read_nothing_unread init 8 3 (by decide)⟩

/-- C8: from a state satisfying the cursor invariant a read never returns a
negative value, whatever the outcome of the copy; when the read cursor
differs from the write cursor and the copy leaves `u` bytes uncopied,
`0 <= u <= effective_len = min(requested_len, write_cursor)`, the read
returns `effective_len - u` and sets the read cursor to `effective_len - u`. -/
theorem read_short (s : State) (count u fault : Nat) (hinv : inv s) :
    0 ≤ (char_drv_read s count fault).ret ∧
    (s.kern_buf_pos_rd ≠ s.kern_buf_pos → (u : Int) ≤ min (count : Int) s.kern_buf_pos →
      (char_drv_read s count u).ret = min (count : Int) s.kern_buf_pos - (u : Int) ∧
      (char_drv_read s count u).state.kern_buf_pos_rd
        = min (count : Int) s.kern_buf_pos - (u : Int) ∧
      0 ≤ (char_drv_read s count u).ret) := by
  have h0 : 0 ≤ s.kern_buf_pos := by unfold inv at hinv; omega
  have h1 : s.kern_buf_pos ≤ BUF_LEN := hinv.2.2
  constructor
  · by_cases hrd : s.kern_buf_pos_rd = s.kern_buf_pos
    · rw [read_eq_nothing s count fault hrd]
    · rw [read_eq s count fault h0 h1 hrd]
      exact Int.ofNat_nonneg _
  · intro hne hu
    rw [read_eq s count u h0 h1 hne]
    have hun : uncopied (min count s.kern_buf_pos.toNat) u = u :=
      uncopied_of_le _ _ (by omega)
    simp only [hun]
    refine ⟨?_, ?_, ?_⟩ <;> omega

theorem read_short_witness :
    inv three_state ∧
    (0 ≤ (char_drv_read three_state 2 7).ret ∧
      (three_state.kern_buf_pos_rd ≠ three_state.kern_buf_pos →
        ((1 : Nat) : Int) ≤ min ((2 : Nat) : Int) three_state.kern_buf_pos →
        (char_drv_read three_state 2 1).ret
          = min ((2 : Nat) : Int) three_state.kern_buf_pos - ((1 : Nat) : Int) ∧
        (char_drv_read three_state 2 1).state.kern_buf_pos_rd
          = min ((2 : Nat) : Int) three_state.kern_buf_pos - ((1 : Nat) : Int) ∧
        0 ≤ (char_drv_read three_state 2 1).ret)) :=
  ⟨by decide, read_short three_state 2 1 7 (by decide)⟩

/-- C9: in every state, release returns 0, sets the read cursor to 0 and
leaves the write cursor and every byte of storage unchanged. -/
theorem release_resets_read_cursor (s : State) :
    (char_drv_release s).2 = 0 ∧
    (char_drv_release s).1.kern_buf_pos_rd = 0 ∧
    (char_drv_release s).1.kern_buf_pos = s.kern_buf_pos ∧
    ∀ i : Fin KERN_BUF_BYTES, (char_drv_release s).1.kern_buf i = s.kern_buf i :=
  ⟨rfl, rfl, rfl, fun _ => rfl⟩

/-- A release followed by a successful read, on a non-empty channel. -/
theorem redrain_eq (s : State) (count : Nat)
    (h0 : 0 < s.kern_buf_pos) (h1 : s.kern_buf_pos ≤ BUF_LEN) :
    redrain s count =
      { state := { s with kern_buf_pos_rd := ((min count s.kern_buf_pos.toNat : Nat) : Int) }
        ret := ((min count s.kern_buf_pos.toNat : Nat) : Int)
        user := (copy_to_user s.kern_buf (min count s.kern_buf_pos.toNat) 0).1
        copy_len := some (min count s.kern_buf_pos.toNat) } := by
  show char_drv_read { s with kern_buf_pos_rd := 0 } count 0 = _
  rw [read_eq { s with kern_buf_pos_rd := 0 } count 0 (le_of_lt h0) h1
    (by show (0 : Int) ≠ s.kern_buf_pos; omega)]
  simp only [uncopied_zero_fault, Nat.sub_zero]

/-- C10: from a state satisfying the cursor invariant with `write_cursor > 0`
and any read cursor, a release followed by a read of requested length at
least `write_cursor` whose copy succeeds returns `write_cursor` and delivers
exactly the bytes of storage at offsets `0 .. write_cursor`; a second release
and such a read return and deliver the same again. -/
theorem redrain_idempotent (s : State) (count count2 : Nat) (hinv : inv s)
    (hpos : 0 < s.kern_buf_pos)
    (hc : s.kern_buf_pos ≤ (count : Int)) (hc2 : s.kern_buf_pos ≤ (count2 : Int)) :
    (redrain s count).ret = s.kern_buf_pos ∧
    ((redrain s count).user.length : Int) = s.kern_buf_pos ∧
    (∀ i : Fin KERN_BUF_BYTES, (i.val : Int) < s.kern_buf_pos →
      (redrain s count).user[i.val]? = some (s.kern_buf i)) ∧
    (redrain (redrain s count).state count2).ret = s.kern_buf_pos ∧
    (redrain (redrain s count).state count2).user = (redrain s count).user := by
  have h1 : s.kern_buf_pos ≤ BUF_LEN := hinv.2.2
  have hm : min count s.kern_buf_pos.toNat = s.kern_buf_pos.toNat := by omega
  have hm2 : min count2 s.kern_buf_pos.toNat = s.kern_buf_pos.toNat := by omega
  have hp : ((s.kern_buf_pos.toNat : Nat) : Int) = s.kern_buf_pos := by omega
  have e1 := redrain_eq s count hpos h1
  rw [hm] at e1
  have e2 := redrain_eq (redrain s count).state count2 (by rw [e1]; exact hpos)
    (by rw [e1]; exact h1)
  rw [e1] at e2
  simp only [hm2] at e2
  rw [e1, e2]
  refine ⟨hp, ?_, fun i hi => ?_, hp, rfl⟩
  · simp only [copy_to_user_length, uncopied_zero_fault, Nat.sub_zero]; exact hp
  · exact copy_to_user_getElem s.kern_buf _ i (by omega)

theorem redrain_idempotent_witness :
    (inv three_read_state ∧ 0 < three_read_state.kern_buf_pos ∧
      three_read_state.kern_buf_pos ≤ ((80 : Nat) : Int) ∧
      three_read_state.kern_buf_pos ≤ ((3 : Nat) : Int)) ∧
    ((redrain three_read_state 80).ret = three_read_state.kern_buf_pos ∧
      ((redrain three_read_state 80).user.length : Int) = three_read_state.kern_buf_pos ∧
      (∀ i : Fin KERN_BUF_BYTES, (i.val : Int) < three_read_state.kern_buf_pos →
        (redrain three_read_state 80).user[i.val]? = some (three_read_state.kern_buf i)) ∧
      (redrain (redrain three_read_state 80).state 3).ret = three_read_state.kern_buf_pos ∧
      (redrain (redrain three_read_state 80).state 3).user
        = (redrain three_read_state 80).user) :=
  ⟨⟨by decide, by decide, by decide, by decide⟩,
    redrain_idempotent three_read_state 80 3 (by decide) (by decide) (by decide) (by decide)⟩

/-- C11 (the code departs from it): on the channel holding the three bytes
1, 2, 3 (write cursor 3) a write of the byte 9 succeeds and returns 1, the
bytes at offsets 0, 1, 2 are unchanged, but the byte at offset 3, the old
write cursor, is still 0: the accepted byte is at byte offset 12. -/
theorem second_write_not_at_cursor :
    inv three_state ∧ three_state.kern_buf_pos = 3 ∧
    (char_drv_write three_state (user_mem [9]) 1 0).ret = 1 ∧
    three_nine_state.kern_buf_pos = 4 ∧
    three_nine_state.kern_buf ⟨0, by decide⟩ = 1 ∧
    three_nine_state.kern_buf ⟨1, by decide⟩ = 2 ∧
    three_nine_state.kern_buf ⟨2, by decide⟩ = 3 ∧
    three_nine_state.kern_buf ⟨3, by decide⟩ = 0 ∧
    three_nine_state.kern_buf ⟨3, by decide⟩ ≠ user_mem [9] 0 ∧
    three_nine_state.kern_buf ⟨12, by decide⟩ = 9 := by
  decide

/-- C12: the trace from the fresh channel with all copies succeeding: the
write of the ten bytes `0123456789` returns 10; the read of 5 bytes returns
5, delivers `01234` and leaves the read cursor at 5; a write of requested
length 75 returns 70 and the write cursor becomes 80; a write of requested
length 1 then fails with `-EFAULT` without copying. -/
theorem concrete_trace (buf75 buf1 : Nat → Byte) :
    trace_write.ret = 10 ∧
    trace_read.ret = 5 ∧
    trace_read.user = [48, 49, 50, 51, 52] ∧
    trace_read.state.kern_buf_pos_rd = 5 ∧
    (char_drv_write trace_read.state buf75 75 0).ret = 70 ∧
    (char_drv_write trace_read.state buf75 75 0).state.kern_buf_pos = 80 ∧
    char_drv_write (char_drv_write trace_read.state buf75 75 0).state buf1 1 0 =
      { state := (char_drv_write trace_read.state buf75 75 0).state
        ret := -EFAULT
        copy_len := none } := by
  have hinv : inv trace_read.state := by decide
  have hp : trace_read.state.kern_buf_pos = 10 := by decide
  have hl : write_len trace_read.state 75 = 70 := by decide
  have hret := write_ok_ret trace_read.state buf75 75 hinv (Or.inl (by rw [hp]; decide))
  have hpos := (write_ok trace_read.state buf75 75 hinv).1
  rw [hl] at hret hpos
  rw [hp] at hpos
  have hfull : (char_drv_write trace_read.state buf75 75 0).state.kern_buf_pos = BUF_LEN := by
    rw [hpos]; decide
  refine ⟨by decide, by decide, by decide, by decide, hret, ?_, ?_⟩
  · rw [hpos]; decide
  · exact write_eq_full _ buf1 1 0 hfull (by decide)

/-- C14: from a state satisfying the cursor invariant no operation lowers the
write cursor, whatever its arguments and the outcome of its copy, and the
write cursor changes only when the operation is a write that returns a
positive byte count. -/
theorem write_cursor_monotone (s : State) (op : Op) (h : inv s) :
    s.kern_buf_pos ≤ (step s op).kern_buf_pos ∧
    ((step s op).kern_buf_pos ≠ s.kern_buf_pos →
      ∃ buf count fault, op = Op.do_write buf count fault ∧
        0 < (char_drv_write s buf count fault).ret) :=
  step_pos s op h

theorem write_cursor_monotone_witness :
    inv three_state ∧
    (three_state.kern_buf_pos ≤ (step three_state (Op.do_write (user_mem [9]) 1 0)).kern_buf_pos ∧
      ((step three_state (Op.do_write (user_mem [9]) 1 0)).kern_buf_pos ≠ three_state.kern_buf_pos →
        ∃ buf count fault, Op.do_write (user_mem [9]) 1 0 = Op.do_write buf count fault ∧
          0 < (char_drv_write three_state buf count fault).ret)) :=
  ⟨by decide, write_cursor_monotone three_state (Op.do_write (user_mem [9]) 1 0) (by decide)⟩

/-- C15, as stated, fails: on the full channel, after a read of 80 bytes
whose copy succeeds and which delivers all 80 stored bytes, a write of one
byte still returns `-EFAULT`, not a positive byte count. -/
theorem write_after_drain_still_full :
    full_state.kern_buf_pos = BUF_LEN ∧
    (char_drv_read full_state 80 0).ret = 80 ∧
    (char_drv_write (char_drv_read full_state 80 0).state (user_mem [7]) 1 0).ret = -EFAULT ∧
    ¬ 0 < (char_drv_write (char_drv_read full_state 80 0).state (user_mem [7]) 1 0).ret := by
  decide

/-- C15, amended: from a state with `write_cursor == 80`, a read of any
requested length and any copy outcome leaves the write cursor at 80, and a
following write of requested length at least 1 fails with `-EFAULT` without
copying and without changing the state. -/
theorem write_after_read_full (s : State) (buf : Nat → Byte) (count fault count2 fault2 : Nat)
    (hfull : s.kern_buf_pos = BUF_LEN) (hc : 0 < count2) :
    (char_drv_read s count fault).state.kern_buf_pos = BUF_LEN ∧
    char_drv_write (char_drv_read s count fault).state buf count2 fault2 =
      { state := (char_drv_read s count fault).state, ret := -EFAULT, copy_len := none } := by
  have hp : (char_drv_read s count fault).state.kern_buf_pos = BUF_LEN := by
    rw [(read_frame s count fault).2, hfull]
  exact ⟨hp, write_eq_full _ buf count2 fault2 hp hc⟩

theorem write_after_read_full_witness :
    (full_state.kern_buf_pos = BUF_LEN ∧ 0 < 1) ∧
    ((char_drv_read full_state 80 0).state.kern_buf_pos = BUF_LEN ∧
      char_drv_write (char_drv_read full_state 80 0).state (user_mem [7]) 1 0 =
        { state := (char_drv_read full_state 80 0).state, ret := -EFAULT, copy_len := none }) :=
  ⟨⟨by decide, by decide⟩,
    write_after_read_full full_state (user_mem [7]) 80 0 1 0 (by decide) (by decide)⟩

/-- C18: the value write returns when it finds no room for a non-empty
request (clamped length 0, line 130) and the value it returns when its copy
reports uncopied bytes (line 140) are the same in all states and for all
inputs: both are `-EFAULT`. -/
theorem write_failures_same_value (s t : State) (buf buf2 : Nat → Byte)
    (count fault count2 fault2 : Nat)
    (hfull : 0 < count ∧ write_len s count = 0)
    (hfault : uncopied (write_len t count2) fault2 ≠ 0) :
    (char_drv_write s buf count fault).ret = -EFAULT ∧
    (char_drv_write t buf2 count2 fault2).ret = -EFAULT ∧
    (char_drv_write s buf count fault).ret = (char_drv_write t buf2 count2 fault2).ret := by
  have h1 : (char_drv_write s buf count fault).ret = -EFAULT := by
    rw [write_eq_no_room s buf count fault hfull.1 hfull.2]
  have h2 := write_fault_ret t buf2 count2 fault2 hfault
  exact ⟨h1, h2, by rw [h1, h2]⟩

theorem write_failures_same_value_witness :
    ((0 < 1 ∧ write_len full_state 1 = 0) ∧ uncopied (write_len three_state 5) 2 ≠ 0) ∧
    ((char_drv_write full_state (user_mem [7]) 1 0).ret = -EFAULT ∧
      (char_drv_write three_state (user_mem [4, 5, 6, 7, 8]) 5 2).ret = -EFAULT ∧
      (char_drv_write full_state (user_mem [7]) 1 0).ret
        = (char_drv_write three_state (user_mem [4, 5, 6, 7, 8]) 5 2).ret) :=
  ⟨⟨⟨by decide, by decide⟩, by decide⟩,
    write_failures_same_value full_state three_state (user_mem [7]) (user_mem [4, 5, 6, 7, 8])
      1 0 5 2 ⟨by decide, by decide⟩ (by decide)⟩

/-- C13: from the fresh channel, for every byte sequence `d` of length `n`,
`1 <= n <= 80`, and every `m` with `m <= n` (so every `1 <= m <= n`): the write of `d` returns
`n`, and after any reads in that session (of any lengths and copy outcomes),
a release followed by a read of `m` bytes whose copy succeeds returns `m`
and delivers exactly the first `m` bytes of `d`. -/
theorem write_release_read_prefix (d : List Byte) (m : Nat) (rs : List (Nat × Nat))
    (hn : 1 ≤ d.length) (hC : d.length ≤ BUF_LEN) (hm : m ≤ d.length) :
    (char_drv_write init (user_mem d) d.length 0).ret = (d.length : Int) ∧
    (redrain (read_all (char_drv_write init (user_mem d) d.length 0).state rs) m).ret
      = (m : Int) ∧
    (redrain (read_all (char_drv_write init (user_mem d) d.length 0).state rs) m).user
      = d.take m := by
  have hinv : inv init := by decide
  have hp0 : init.kern_buf_pos = 0 := rfl
  have hwl : write_len init d.length = d.length := by
    rw [write_len_eq init d.length (by decide) (by decide), hp0]
    simp only [BUF_LEN] at hC ⊢
    omega
  have hret := write_ok_ret init (user_mem d) d.length hinv (Or.inl (by decide))
  have hw := write_ok init (user_mem d) d.length hinv
  rw [hwl] at hret hw
  rw [hp0] at hw
  have hf := read_all_frame rs (char_drv_write init (user_mem d) d.length 0).state
  have hpos : (read_all (char_drv_write init (user_mem d) d.length 0).state rs).kern_buf_pos
      = (d.length : Int) := by
    rw [hf.2, hw.1]; omega
  have hmin : min m (read_all (char_drv_write init (user_mem d) d.length 0).state rs).kern_buf_pos.toNat
      = m := by
    rw [hpos]; omega
  rw [redrain_eq _ m (by rw [hpos]; omega) (by rw [hpos]; exact_mod_cast hC), hmin]
  refine ⟨hret, rfl, ?_⟩
  apply copy_to_user_eq
  · rw [List.length_take]; omega
  · exact le_trans (le_trans hm hC) (by decide)
  · intro i hi
    rw [hf.1, hw.2.2 i]
    have hcond : (SIZEOF_INT : Int) * 0 ≤ (i.val : Int) ∧
        (i.val : Int) < (SIZEOF_INT : Int) * 0 + (d.length : Int) := by
      omega
    rw [if_pos hcond]
    have hidx : ((i.val : Int) - (SIZEOF_INT : Int) * 0).toNat = i.val := by omega
    rw [hidx, List.getElem?_take_of_lt hi]
    unfold user_mem
    rw [List.getD_eq_getElem?_getD, List.getElem?_eq_getElem (by omega)]
    rfl

theorem write_release_read_prefix_witness :
    (1 ≤ [1, 2, 3].length ∧ [1, 2, 3].length ≤ BUF_LEN ∧ 2 ≤ [1, 2, 3].length) ∧
    ((char_drv_write init (user_mem [1, 2, 3]) [1, 2, 3].length 0).ret
        = (([1, 2, 3] : List Byte).length : Int) ∧
      (redrain (read_all (char_drv_write init (user_mem [1, 2, 3]) [1, 2, 3].length 0).state
          [(1, 0)]) 2).ret = ((2 : Nat) : Int) ∧
      (redrain (read_all (char_drv_write init (user_mem [1, 2, 3]) [1, 2, 3].length 0).state
          [(1, 0)]) 2).user = ([1, 2, 3] : List Byte).take 2) :=
  ⟨⟨by decide, by decide, by decide⟩,
    write_release_read_prefix [1, 2, 3] 2 [(1, 0)] (by decide) (by decide) (by decide)⟩

/-- Consecutive reads of `n` bytes, `0 < n < write_cursor`, started with the
read cursor off the write cursor: storage and the write cursor stay as they
were and the read cursor never reaches the write cursor. -/
theorem reads_frame (s : State) (n : Nat) (h0 : 0 < n) (hn : (n : Int) < s.kern_buf_pos)
    (h1 : s.kern_buf_pos ≤ BUF_LEN) (hne : s.kern_buf_pos_rd ≠ s.kern_buf_pos) (k : Nat) :
    (reads s n k).kern_buf = s.kern_buf ∧ (reads s n k).kern_buf_pos = s.kern_buf_pos ∧
    (reads s n k).kern_buf_pos_rd ≠ (reads s n k).kern_buf_pos := by
  induction k with
  | zero => exact ⟨rfl, rfl, hne⟩
  | succ k ih =>
    have hf := read_frame (reads s n k) n 0
    have hp : 0 ≤ (reads s n k).kern_buf_pos := by rw [ih.2.1]; omega
    have hq : (reads s n k).kern_buf_pos ≤ BUF_LEN := by rw [ih.2.1]; exact h1
    have he := read_eq (reads s n k) n 0 hp hq ih.2.2
    show (char_drv_read (reads s n k) n 0).state.kern_buf = _ ∧
      (char_drv_read (reads s n k) n 0).state.kern_buf_pos = _ ∧
      (char_drv_read (reads s n k) n 0).state.kern_buf_pos_rd
        ≠ (char_drv_read (reads s n k) n 0).state.kern_buf_pos
    refine ⟨by rw [hf.1, ih.1], by rw [hf.2, ih.2.1], ?_⟩
    rw [hf.2, he, ih.2.1]
    simp only [uncopied_zero_fault, Nat.sub_zero]
    omega

/-- C16: in a state with write cursor `w` in its range and read cursor
different from `w`, for every requested length `n` with `0 < n < w` and every
number `k` of reads of `n` bytes already done, the next read of `n` bytes
(copies succeeding) returns `n`, never 0, delivers exactly `n` bytes, which
are the bytes of storage at offsets `0 .. n` of the state before the first
read, and leaves the read cursor at `n`: bytes at offsets `n` and above are
never delivered and end-of-data is never signalled. -/
theorem reread_same_prefix (s : State) (n k : Nat) (h0 : 0 < n)
    (hn : (n : Int) < s.kern_buf_pos) (h1 : s.kern_buf_pos ≤ BUF_LEN)
    (hne : s.kern_buf_pos_rd ≠ s.kern_buf_pos) :
    (char_drv_read (reads s n k) n 0).ret = (n : Int) ∧
    (char_drv_read (reads s n k) n 0).ret ≠ 0 ∧
    (char_drv_read (reads s n k) n 0).user.length = n ∧
    (∀ i : Fin KERN_BUF_BYTES, i.val < n →
      (char_drv_read (reads s n k) n 0).user[i.val]? = some (s.kern_buf i)) ∧
    (char_drv_read (reads s n k) n 0).state.kern_buf_pos_rd = (n : Int) ∧
    (reads s n (k + 1)).kern_buf_pos_rd ≠ (reads s n (k + 1)).kern_buf_pos := by
  have hk := reads_frame s n h0 hn h1 hne k
  have hk1 := reads_frame s n h0 hn h1 hne (k + 1)
  have hp : 0 ≤ (reads s n k).kern_buf_pos := by rw [hk.2.1]; omega
  have hq : (reads s n k).kern_buf_pos ≤ BUF_LEN := by rw [hk.2.1]; exact h1
  have hmin : min n (reads s n k).kern_buf_pos.toNat = n := by rw [hk.2.1]; omega
  rw [read_eq (reads s n k) n 0 hp hq hk.2.2, hmin, hk.1]
  refine ⟨?_, ?_, ?_, fun i hi => ?_, ?_, hk1.2.2⟩
  · simp only [uncopied_zero_fault, Nat.sub_zero]
  · simp only [uncopied_zero_fault, Nat.sub_zero]; omega
  · simp only [copy_to_user_length, uncopied_zero_fault, Nat.sub_zero]
  · exact copy_to_user_getElem s.kern_buf n i hi
  · simp only [uncopied_zero_fault, Nat.sub_zero]

theorem reread_same_prefix_witness :
    (0 < 2 ∧ ((2 : Nat) : Int) < three_state.kern_buf_pos ∧ three_state.kern_buf_pos ≤ BUF_LEN ∧
      three_state.kern_buf_pos_rd ≠ three_state.kern_buf_pos) ∧
    ((char_drv_read (reads three_state 2 4) 2 0).ret = ((2 : Nat) : Int) ∧
      (char_drv_read (reads three_state 2 4) 2 0).ret ≠ 0 ∧
      (char_drv_read (reads three_state 2 4) 2 0).user.length = 2 ∧
      (∀ i : Fin KERN_BUF_BYTES, i.val < 2 →
        (char_drv_read (reads three_state 2 4) 2 0).user[i.val]?
          = some (three_state.kern_buf i)) ∧
      (char_drv_read (reads three_state 2 4) 2 0).state.kern_buf_pos_rd = ((2 : Nat) : Int) ∧
      (reads three_state 2 (4 + 1)).kern_buf_pos_rd
        ≠ (reads three_state 2 (4 + 1)).kern_buf_pos) :=
  ⟨⟨by decide, by decide, by decide, by decide⟩,
    reread_same_prefix three_state 2 4 (by decide) (by decide) (by decide) (by decide)⟩

/-- The fresh channel after a write of `d1` and a write of `d2`, both
non-empty and fitting together: cursors and storage. -/
theorem two_writes_eq (d1 d2 : List Byte) (ha : 1 ≤ d1.length)
    (hab : d1.length + d2.length ≤ BUF_LEN) :
    inv (char_drv_write (char_drv_write init (user_mem d1) d1.length 0).state
      (user_mem d2) d2.length 0).state ∧
    (char_drv_write (char_drv_write init (user_mem d1) d1.length 0).state
      (user_mem d2) d2.length 0).state.kern_buf_pos = ((d1.length + d2.length : Nat) : Int) ∧
    (char_drv_write (char_drv_write init (user_mem d1) d1.length 0).state
      (user_mem d2) d2.length 0).state.kern_buf_pos_rd = 0 ∧
    ∀ i : Fin KERN_BUF_BYTES, d1.length ≤ i.val → i.val < 4 * d1.length →
      (char_drv_write (char_drv_write init (user_mem d1) d1.length 0).state
        (user_mem d2) d2.length 0).state.kern_buf i = 0 := by
  have hinv : inv init := by decide
  have hp0 : init.kern_buf_pos = 0 := rfl
  have hwl : write_len init d1.length = d1.length := by
    rw [write_len_eq init d1.length (by decide) (by decide), hp0]
    simp only [BUF_LEN] at hab ⊢
    omega
  have hw := write_ok init (user_mem d1) d1.length hinv
  rw [hwl, hp0] at hw
  have hinv1 : inv (char_drv_write init (user_mem d1) d1.length 0).state :=
    step_inv init (Op.do_write (user_mem d1) d1.length 0) hinv
  have hp1 : (char_drv_write init (user_mem d1) d1.length 0).state.kern_buf_pos
      = (d1.length : Int) := by
    rw [hw.1]; omega
  have hwl2 : write_len (char_drv_write init (user_mem d1) d1.length 0).state d2.length
      = d2.length := by
    rw [write_len_eq _ d2.length (by rw [hp1]; omega) hinv1.2.2, hp1]
    simp only [BUF_LEN] at hab ⊢
    omega
  have hw2 := write_ok (char_drv_write init (user_mem d1) d1.length 0).state
    (user_mem d2) d2.length hinv1
  rw [hwl2, hp1] at hw2
  refine ⟨step_inv _ (Op.do_write (user_mem d2) d2.length 0) hinv1, ?_, ?_, fun i hi1 hi2 => ?_⟩
  · rw [hw2.1]; omega
  · rw [hw2.2.1, hw.2.1]; rfl
  · rw [hw2.2.2 i, if_neg (by simp only [SIZEOF_INT]; omega), hw.2.2 i,
      if_neg (by simp only [SIZEOF_INT]; omega)]
    rfl

/-- The write cursor after a write is the write cursor before plus the
number of bytes accepted, which is the value returned when it is a byte
count and 0 when it is an error. -/
theorem write_pos_accepted (s : State) (buf : Nat → Byte) (count fault : Nat) (h : inv s) :
    (char_drv_write s buf count fault).state.kern_buf_pos
      = s.kern_buf_pos + max 0 (char_drv_write s buf count fault).ret := by
  by_cases hfull : s.kern_buf_pos = BUF_LEN ∧ 0 < count
  · rw [write_eq_full s buf count fault hfull.1 hfull.2]
    show s.kern_buf_pos = s.kern_buf_pos + max 0 (-EFAULT)
    simp only [EFAULT]
    omega
  · have h0 : 0 ≤ s.kern_buf_pos := by unfold inv at h; omega
    rw [write_eq_copy s buf count fault h0 h.2.2 (by have := h.2.2; omega)]
    split
    · show s.kern_buf_pos = s.kern_buf_pos + max 0 (-EFAULT)
      simp only [EFAULT]
      omega
    · simp only
      omega

/-- C17: write stores the accepted bytes `sizeof(int) * write_cursor` bytes
from the start of `kern_buf` while read copies from byte offset 0.  From a
state satisfying the cursor invariant, the written byte range lies inside the
320-byte array, the bytes of a write whose copy succeeds are exactly there
and all other bytes are kept, and the range of any later write (after any
operations) starts where or after the range of the bytes this write accepted
ends, whatever the outcome of its copy.  From the fresh channel,
after a first write of `a >= 1` bytes and a second of `b >= 1` bytes with
`a + b <= 80`, a full read returns `a + b` and the bytes it delivers at
positions `a <= i < min(a + b, 4a)` are zero bytes. -/
theorem write_int_stride (s : State) (buf : Nat → Byte) (count fault : Nat) (ops : List Op)
    (d1 d2 : List Byte) (n : Nat) (hinv : inv s)
    (ha : 1 ≤ d1.length) (hb : 1 ≤ d2.length) (hab : d1.length + d2.length ≤ BUF_LEN)
    (hn : d1.length + d2.length ≤ n) :
    (0 ≤ (SIZEOF_INT : Int) * s.kern_buf_pos ∧
      (SIZEOF_INT : Int) * s.kern_buf_pos + (write_len s count : Int) ≤ (KERN_BUF_BYTES : Int)) ∧
    (∀ i : Fin KERN_BUF_BYTES,
      (char_drv_write s buf count 0).state.kern_buf i =
        if (SIZEOF_INT : Int) * s.kern_buf_pos ≤ (i.val : Int) ∧
            (i.val : Int) < (SIZEOF_INT : Int) * s.kern_buf_pos + (write_len s count : Int)
        then buf ((i.val : Int) - (SIZEOF_INT : Int) * s.kern_buf_pos).toNat
        else s.kern_buf i) ∧
    (inv (run (char_drv_write s buf count fault).state ops) ∧
      (SIZEOF_INT : Int) * s.kern_buf_pos + max 0 (char_drv_write s buf count fault).ret ≤
        (SIZEOF_INT : Int) * (run (char_drv_write s buf count fault).state ops).kern_buf_pos) ∧
    ((char_drv_read (char_drv_write (char_drv_write init (user_mem d1) d1.length 0).state
        (user_mem d2) d2.length 0).state n 0).ret = ((d1.length + d2.length : Nat) : Int) ∧
      ∀ i : Nat, d1.length ≤ i → i < min (d1.length + d2.length) (4 * d1.length) →
        (char_drv_read (char_drv_write (char_drv_write init (user_mem d1) d1.length 0).state
          (user_mem d2) d2.length 0).state n 0).user[i]? = some 0) := by
  have h0 : 0 ≤ s.kern_buf_pos := by unfold inv at hinv; omega
  have h1 : s.kern_buf_pos ≤ BUF_LEN := hinv.2.2
  have hl := write_len_eq s count h0 h1
  have hw := write_ok s buf count hinv
  have hinv1 : inv (char_drv_write s buf count fault).state :=
    step_inv s (Op.do_write buf count fault) hinv
  have hmono := run_pos_le ops (char_drv_write s buf count fault).state hinv1
  have hacc := write_pos_accepted s buf count fault hinv
  have ht := two_writes_eq d1 d2 ha hab
  refine ⟨⟨?_, ?_⟩, hw.2.2, ⟨run_inv ops _ hinv1, ?_⟩, ?_, ?_⟩
  · simp only [SIZEOF_INT]; omega
  · rw [hl]; simp only [BUF_LEN, SIZEOF_INT, KERN_BUF_BYTES] at h1 ⊢; omega
  · rw [hacc] at hmono
    simp only [SIZEOF_INT]
    omega
  · rw [read_eq _ n 0 (by rw [ht.2.1]; omega) ht.1.2.2 (by rw [ht.2.1, ht.2.2.1]; omega)]
    simp only [uncopied_zero_fault, Nat.sub_zero]
    rw [ht.2.1]
    omega
  · intro i hi1 hi2
    rw [read_eq _ n 0 (by rw [ht.2.1]; omega) ht.1.2.2 (by rw [ht.2.1, ht.2.2.1]; omega)]
    have hi320 : i < KERN_BUF_BYTES := by
      simp only [BUF_LEN, SIZEOF_INT, KERN_BUF_BYTES] at hab ⊢; omega
    have hget := copy_to_user_getElem
      (char_drv_write (char_drv_write init (user_mem d1) d1.length 0).state
        (user_mem d2) d2.length 0).state.kern_buf
      (min n (char_drv_write (char_drv_write init (user_mem d1) d1.length 0).state
        (user_mem d2) d2.length 0).state.kern_buf_pos.toNat) ⟨i, hi320⟩
      (by rw [ht.2.1]; show i < _; omega)
    rw [ht.2.2.2 ⟨i, hi320⟩ hi1 (by show i < _; omega)] at hget
    exact hget

theorem write_int_stride_witness :
    (inv three_state ∧ 1 ≤ [65].length ∧ 1 ≤ [66].length ∧
      [65].length + [66].length ≤ BUF_LEN ∧ [65].length + [66].length ≤ 2) ∧
    ((0 ≤ (SIZEOF_INT : Int) * three_state.kern_buf_pos ∧
      (SIZEOF_INT : Int) * three_state.kern_buf_pos + (write_len three_state 1 : Int)
        ≤ (KERN_BUF_BYTES : Int)) ∧
    (∀ i : Fin KERN_BUF_BYTES,
      (char_drv_write three_state (user_mem [9]) 1 0).state.kern_buf i =
        if (SIZEOF_INT : Int) * three_state.kern_buf_pos ≤ (i.val : Int) ∧
            (i.val : Int)
              < (SIZEOF_INT : Int) * three_state.kern_buf_pos + (write_len three_state 1 : Int)
        then user_mem [9] ((i.val : Int) - (SIZEOF_INT : Int) * three_state.kern_buf_pos).toNat
        else three_state.kern_buf i) ∧
    (inv (run (char_drv_write three_state (user_mem [9]) 1 0).state [Op.do_release]) ∧
      (SIZEOF_INT : Int) * three_state.kern_buf_pos
          + max 0 (char_drv_write three_state (user_mem [9]) 1 0).ret ≤
        (SIZEOF_INT : Int)
          * (run (char_drv_write three_state (user_mem [9]) 1 0).state
              [Op.do_release]).kern_buf_pos) ∧
    ((char_drv_read (char_drv_write (char_drv_write init (user_mem [65]) [65].length 0).state
        (user_mem [66]) [66].length 0).state 2 0).ret
          = (([65].length + [66].length : Nat) : Int) ∧
      ∀ i : Nat, [65].length ≤ i → i < min ([65].length + [66].length) (4 * [65].length) →
        (char_drv_read (char_drv_write (char_drv_write init (user_mem [65]) [65].length 0).state
          (user_mem [66]) [66].length 0).state 2 0).user[i]? = some 0)) :=
  ⟨⟨by decide, by decide, by decide, by decide, by decide⟩,
    write_int_stride three_state (user_mem [9]) 1 0 [Op.do_release] [65] [66] 2 (by decide)
      (by decide) (by decide) (by decide) (by decide)⟩

end CharDrv
